import Mathlib

/-!
Verification development for the reading-session engine implemented in
`src/hooks/use-epub-reader.ts` (tsl-e-shelf).

Shallow embedding conventions:
* JavaScript numbers that carry character counts, indices and lengths are
  modelled as `Nat`; the quota percentage (which may be fractional) and the
  quota comparison, which JavaScript performs on IEEE doubles, are modelled
  exactly over `ℚ` (the standard idealisation of double arithmetic at the
  magnitudes involved).
* `localStorage` is modelled as explicit fields holding the value that was
  last written under the relevant key; `navigator.clipboard.writeText` is
  modelled as an append-only log together with a `clipboardOk` flag standing
  for whether the external write resolves or rejects.
* External host collaborators (epubjs `cfiFromRange`, the overlay renderer,
  `JSON.parse`) are modelled as explicitly parameterised oracles where their
  success or failure decides control flow, and as concrete injective
  encodings where only the produced value travels through the engine.
* The concurrent per-chapter search tasks of `searchBook` are modelled by an
  explicit scheduler: each chapter task is the ordered queue of results it
  will push, and a schedule (a list of chapter indices) says whose next push
  the event loop performs at every step.
-/

/-! ## Copy Quota Manager (`copyText`, lines 231-262) -/

/-- State touched by `copyText`: the in-memory `copiedChars` counter, the
value last written to `localStorage` under `STORAGE_KEY_COPIED_CHARS`
(`none` when the key was never written), and the log of text lengths written
to the system clipboard, in order. -/
structure CopyState where
  copiedChars : Nat
  persistedCopiedChars : Option Nat
  clipboard : List Nat
deriving Repr, DecidableEq

/-- Outcome of one `copyText` call: normal resolution, the thrown
`Error("Copy limit exceeded")`, or the re-thrown clipboard failure. -/
inductive CopyOutcome where
  | ok
  | quotaExceeded
  | clipboardError
deriving Repr, DecidableEq

/-- Model of `copyText` (lines 231-262). In unprotected mode the clipboard
write is attempted and any failure is swallowed (`console.error`, normal
return). In protected mode: `allowedChars = totalBookChars * copyAllowance /
100`; if `copiedChars + text.length > allowedChars` the call throws before
touching the clipboard or the counter; otherwise the clipboard is written
and on success the counter is bumped by the text length and the new value is
persisted; a clipboard rejection is re-thrown with the counter untouched.
`textLength` stands for `text.length` and `clipboardOk` for whether the
external `navigator.clipboard.writeText` resolves. -/
def copyText (isCopyProtected : Bool) (totalBookChars : Nat) (copyAllowance : ℚ)
    (clipboardOk : Bool) (textLength : Nat) (s : CopyState) : CopyState × CopyOutcome :=
  if !isCopyProtected then
    if clipboardOk then ({ s with clipboard := s.clipboard ++ [textLength] }, .ok)
    else (s, .ok)
  else
    let allowedChars : ℚ := (totalBookChars * copyAllowance) / 100
    if ((s.copiedChars : ℚ) + textLength > allowedChars) then
      (s, .quotaExceeded)
    else if clipboardOk then
      let newCopiedChars := s.copiedChars + textLength
      ({ copiedChars := newCopiedChars, persistedCopiedChars := some newCopiedChars,
         clipboard := s.clipboard ++ [textLength] }, .ok)
    else (s, .clipboardError)

/-- Run a sequence of protected `copyText` calls (clipboard always
resolving), threading the state and collecting each call's outcome. -/
def runCopies (total : Nat) (allow : ℚ) (s : CopyState) : List Nat → CopyState × List CopyOutcome
  | [] => (s, [])
  | l :: ls =>
    let (s', r) := copyText true total allow true l s
    let (sf, rs) := runCopies total allow s' ls
    (sf, r :: rs)

/-! ## Configuration validation (`copyAllowancePercentage` effect, lines 213-221) -/

/-- The fatal configuration error thrown by the validation effect. -/
inductive ConfigError where
  | invalidCopyAllowancePercentage
deriving Repr, DecidableEq

/-- Model of the validation effect (lines 213-221): a configured
`copyAllowancePercentage` below 0 or above 100 throws
`Error("Invalid copyAllowancePercentage")`; otherwise the value is accepted
and stored as the session's allowance (`setCopyAllowance`). -/
def validateCopyAllowance (p : ℚ) : Except ConfigError ℚ :=
  if p < 0 ∨ p > 100 then .error .invalidCopyAllowancePercentage
  else .ok p

/-! ## Annotation Store: highlights (`addHighlight` lines 264-283,
`removeHighlight` lines 285-331) -/

/-- The two highlight kinds of `HighlightType` (line 68). -/
inductive HighlightType where
  | highlight
  | underline
deriving Repr, DecidableEq

/-- A stored highlight as constructed by `addHighlight` (line 270); the
optional `rect` field of the TS type is presentation-only and never stored. -/
structure Highlight where
  cfi : String
  text : String
  type : HighlightType
  color : String
  createdAt : String
deriving Repr, DecidableEq

/-- The argument record of `addHighlight`: `type` and `color` are optional
and defaulted inside the function (line 265). -/
structure HighlightInput where
  cfi : String
  text : String
  type : Option HighlightType := none
  color : Option String := none

/-- The highlight collection plus the value last serialized to
`localStorage` under `STORAGE_KEY_HIGHLIGHTS`. -/
structure HighlightStore where
  highlights : List Highlight
  persisted : Option (List Highlight)
deriving Repr, DecidableEq

/-- Model of `addHighlight` (lines 264-283): defaults are applied
(`type = "highlight"`, `color = "yellow"`), the new entry is appended to the
previous collection (`[...prev, newHighlight]`), and the updated collection
is persisted. The overlay call (`annotations.add`) is external
fire-and-forget and carries no stored state. `now` stands for
`new Date().toISOString()`. -/
def addHighlight (now : String) (args : HighlightInput) (st : HighlightStore) : HighlightStore :=
  let type := args.type.getD .highlight
  let color := args.color.getD "yellow"
  let newHighlight : Highlight :=
    { cfi := args.cfi, text := args.text, color := color, type := type, createdAt := now }
  let updated := st.highlights ++ [newHighlight]
  { highlights := updated, persisted := some updated }

/-- Model of the state update of `removeHighlight` (lines 324-328): the
collection is filtered by `h.cfi !== cfi` alone — the `type` parameter is
used only for the external overlay removal and does not constrain which
stored entries are deleted — and the filtered collection is persisted. -/
def removeHighlight (cfi : String) (type : HighlightType) (st : HighlightStore) : HighlightStore :=
  let _ := type
  let updated := st.highlights.filter (fun h => h.cfi ≠ cfi)
  { highlights := updated, persisted := some updated }

/-- Number of stored highlights with the given `(position, kind)` key. -/
def countByKey (l : List Highlight) (cfi : String) (t : HighlightType) : Nat :=
  (l.filter (fun h => h.cfi == cfi && h.type == t)).length

/-! ## Persistence load effects (lines 1052-1090) -/

/-- A bookmark as stored by `addBookmark` (lines 362-367). -/
structure Bookmark where
  cfi : String
  label : Option String := none
  createdAt : String
  chapter : Option String
  page : Option Nat
deriving Repr, DecidableEq

/-- A note as stored by `addNote` (line 422). -/
structure Note where
  cfi : String
  text : String
  note : String
  createdAt : String
deriving Repr, DecidableEq

/-- Model of the saved-highlights loading effect (lines 1052-1063). The
stored bytes and their `JSON.parse` outcome are a parameter: `none` when the
key is absent, `some (.ok v)` when parsing yields `v`, `some (.error e)`
when `JSON.parse` throws `e`. The parse sits inside `try/catch`, so a parse
failure is logged and the collection keeps its empty initial state; the
effect itself never throws. -/
def loadHighlightsEffect (stored : Option (Except String (List Highlight))) :
    Except String (List Highlight) :=
  match stored with
  | none => .ok []
  | some (.ok parsed) => .ok parsed
  | some (.error _) => .ok []

/-- Model of the saved-bookmarks loading effect (lines 1066-1075); the parse
sits inside `try/catch`, so a parse failure leaves the empty initial state
and the effect never throws. -/
def loadBookmarksEffect (stored : Option (Except String (List Bookmark))) :
    Except String (List Bookmark) :=
  match stored with
  | none => .ok []
  | some (.ok parsed) => .ok parsed
  | some (.error _) => .ok []

/-- Model of the saved-notes loading effect (lines 1078-1090):
`JSON.parse(savedNotes)` is called with no surrounding `try/catch`, so a
parse failure propagates out of the effect as a thrown exception. -/
def loadNotesEffect (stored : Option (Except String (List Note))) :
    Except String (List Note) :=
  match stored with
  | none => .ok []
  | some (.ok parsed) => .ok parsed
  | some (.error e) => .error e

/-! ## Search Engine (`searchBook`, lines 525-619)

The per-chapter scan operates on `fullText`, the chapter's concatenated,
lower-cased text-node buffer, and on the trimmed, lower-cased query. The
scanning loop is `pos = fullText.indexOf(q); while (pos !== -1) { push;
pos = fullText.indexOf(q, pos + 1) }`. `indexOf` is modelled by a
structurally recursive scan whose fuel argument is exactly the termination
measure `s.length + 1 - start` of the forward walk. -/

/-- Whether the query occurs in `s` at offset `i`
(`s.substring(i, i + q.length) === q`). -/
def matchesAt (s q : List Char) (i : Nat) : Bool :=
  (s.drop i).take q.length == q

/-- Fuel-indexed forward scan underlying `indexOf`: try offsets `start`,
`start + 1`, … while they do not exceed `s.length`, returning the first
offset where the query matches. -/
def indexOfFromAux (s q : List Char) : Nat → Nat → Option Nat
  | 0, _ => none
  | r + 1, start =>
    if start ≤ s.length then
      if matchesAt s q start then some start
      else indexOfFromAux s q r (start + 1)
    else none

/-- Model of `fullText.indexOf(q, start)` for a non-empty query: the least
offset `≥ start` at which `q` occurs, `none` standing for the sentinel
`-1`. -/
def indexOfFrom (s q : List Char) (start : Nat) : Option Nat :=
  indexOfFromAux s q (s.length + 1 - start) start

/-- Fuel-indexed model of the occurrence loop of `searchBook` (lines
568-605): record the offset returned by `indexOf` and restart the search
one character past the match start. The fuel bounds the number of loop
iterations; since every iteration strictly advances the scan position,
`s.length + 1 - start` iterations always suffice. -/
def scanLoopAux (s q : List Char) : Nat → Nat → List Nat
  | 0, _ => []
  | r + 1, start =>
    match indexOfFrom s q start with
    | none => []
    | some pos => pos :: scanLoopAux s q r (pos + 1)

/-- All match offsets reported for one chapter buffer, in the order the
loop of `searchBook` visits them. -/
def scanOccurrences (s q : List Char) : List Nat :=
  scanLoopAux s q (s.length + 1) 0

/-- A search result as pushed by `searchBook` (lines 85-91, 592-598). -/
structure SearchResult where
  cfi : String
  excerpt : String
  href : String
  chapterTitle : String
  chapterIndex : Nat
deriving Repr, DecidableEq

/-- Concrete injective stand-in for the host's `item.cfiFromRange` (line
587): the engine treats the produced position as an opaque token. -/
def mkCfi (chapterIndex pos : Nat) : String :=
  "cfi-" ++ toString chapterIndex ++ "-" ++ toString pos

/-- The excerpt of line 588: `fullText.substring(max(0, pos - 30),
pos + q.length + 30)` wrapped in ellipses (`contextLength = 30`). -/
def excerptOf (fullText q : List Char) (pos : Nat) : String :=
  let contextLength := 30
  let lo := pos - contextLength
  let hi := pos + q.length + contextLength
  "..." ++ String.mk ((fullText.drop lo).take (hi - lo)) ++ "..."

/-- A spine chapter as seen by search: its href, resolved chapter title,
and the concatenated lower-cased text-node buffer. The walk from a flat
offset back to a text node and intra-node offset (lines 574-579) always
succeeds for a genuine occurrence offset and only feeds the host
`cfiFromRange`, so the buffer is modelled directly. -/
structure ChapterDoc where
  href : String
  chapterTitle : String
  text : List Char
deriving Repr, DecidableEq

/-- The ordered sequence of results one chapter's scan task pushes, for a
trimmed lower-cased query: one result per occurrence offset, in loop
order. -/
def chapterResults (chapterIndex : Nat) (ch : ChapterDoc) (q : List Char) : List SearchResult :=
  (scanOccurrences ch.text q).map (fun pos =>
    { cfi := mkCfi chapterIndex pos, excerpt := excerptOf ch.text q pos,
      href := ch.href, chapterTitle := ch.chapterTitle, chapterIndex := chapterIndex })

/-- The per-chapter push queues of one `searchBook` call: chapter `i`'s
task will push `chapterResults i (doc[i]) q` in that order. -/
def searchQueues (doc : List ChapterDoc) (q : List Char) : List (List SearchResult) :=
  doc.mapIdx (fun i ch => chapterResults i ch q)

/-- One scheduler step: task `d` performs its next push into the shared
`results` array, if it still has results pending. -/
def runSched {α : Type} (queues : List (List α)) : List Nat → List (Nat × α) × List (List α)
  | [] => ([], queues)
  | d :: cs =>
    match queues[d]? with
    | some (x :: rest) =>
      let r := runSched (queues.set d rest) cs
      ((d, x) :: r.1, r.2)
    | _ => runSched queues cs

/-- The pushes contributed by chapter task `c`, in push order. -/
def outputsFor {α : Type} (c : Nat) (out : List (Nat × α)) : List α :=
  out.filterMap (fun p => if p.1 = c then some p.2 else none)

/-- Whether a published result sequence is sorted by `chapterIndex`
ascending. -/
def isSortedByChapter : List SearchResult → Bool
  | [] => true
  | [_] => true
  | a :: b :: rest => a.chapterIndex ≤ b.chapterIndex && isSortedByChapter (b :: rest)

/-! ## Search navigation (`goToSearchResult`, lines 621-631) -/

/-- State touched by `goToSearchResult`: the published result list, the
selected-result position (`selectedCfi`), the current index, and the log of
`rendition.display` calls. -/
structure SearchNavState where
  searchResults : List SearchResult
  selectedCfi : String
  currentSearchResultIndex : Int
  displayed : List String
deriving Repr, DecidableEq

/-- Model of `goToSearchResult` (lines 621-631): only when
`0 ≤ index < searchResults.length` does it display the result's position,
select it, and update `currentSearchResultIndex`; otherwise nothing
happens. -/
def goToSearchResult (index : Int) (st : SearchNavState) : SearchNavState :=
  if 0 ≤ index ∧ index < st.searchResults.length then
    match st.searchResults[index.toNat]? with
    | some r =>
      { st with displayed := st.displayed ++ [r.cfi], selectedCfi := r.cfi,
                currentSearchResultIndex := index }
    | none => st
  else st

/-! ## Progress & TOC Estimator (`enhanceTocWithPages`, lines 495-523) -/

/-- A TOC node as delivered by epubjs navigation (`NavItem`): label, href,
and nested subitems. -/
inductive NavItem where
  | mk (label : String) (href : String) (subitems : List NavItem)

/-- The subitems of a TOC node. -/
def NavItem.subitems : NavItem → List NavItem
  | ⟨_, _, s⟩ => s

/-- A TOC node annotated with an optional estimated page
(`EnhancedNavItem`, lines 101-104). -/
inductive EnhancedNavItem where
  | mk (label : String) (href : String) (page : Option Nat) (subitems : List EnhancedNavItem)

/-- The estimated page of an enhanced TOC node. -/
def EnhancedNavItem.page : EnhancedNavItem → Option Nat
  | ⟨_, _, p, _⟩ => p

/-- The subitems of an enhanced TOC node. -/
def EnhancedNavItem.subitems : EnhancedNavItem → List EnhancedNavItem
  | ⟨_, _, _, s⟩ => s

/-- The page estimate of one `enhanceItem` call (lines 497-508):
`book.locations.length()` is modelled as the oracle `locLen`, indexed by
the entry's flat index so that an individual call may throw (the
surrounding `try/catch` then leaves `page` undefined). With `L` locations
and `L > 0`: `page = floor((index / n) * L) + 1` — exact over the rationals,
hence `index * L / n + 1` in `Nat` — then clamped below by 1 and above by
`L`. `n` is `tocItems.length`, the length of the list the enclosing
`enhanceTocWithPages` call received. -/
def pageAt (n : Nat) (locLen : Nat → Except Unit Nat) (index : Nat) : Option Nat :=
  match locLen index with
  | .error _ => none
  | .ok L =>
    if 0 < L then
      let p := index * L / n + 1
      let p1 := if p < 1 then 1 else p
      some (if p1 > L then L else p1)
    else none

/-- Model of `enhanceItem` mapped over a sibling list (lines 496-522): the
item at cursor `index` receives `pageAt n locLen index`, its children are
enhanced with indices `index + subIndex + 1`, and the next sibling is
numbered with the cursor advanced by one — top-level siblings are numbered
`0, 1, 2, …` by the `tocItems.map((item, index) => …)` call, and a child
list starting at parent index `i` is numbered `i + 1, i + 2, …`. -/
def enhanceSubs (n : Nat) (locLen : Nat → Except Unit Nat) :
    List NavItem → Nat → List EnhancedNavItem
  | [], _ => []
  | ⟨label, href, subs⟩ :: rest, index =>
    ⟨label, href, pageAt n locLen index, enhanceSubs n locLen subs (index + 1)⟩ ::
      enhanceSubs n locLen rest (index + 1)

/-- Model of `enhanceTocWithPages` (lines 495-523): every recursive
`enhanceItem` call divides by the length of the top-level `tocItems` list
captured by the closure, and the top-level entries are numbered from 0. -/
def enhanceTocWithPages (tocItems : List NavItem) (locLen : Nat → Except Unit Nat) :
    List EnhancedNavItem :=
  enhanceSubs tocItems.length locLen tocItems 0

/-- The flat index sequence of a TOC forest under the numbering
`enhanceTocWithPages` uses: a node at cursor `index` gets that index, its
children start at `index + 1`, and its next sibling also continues at
`index + 1` (sibling numbering does not skip over a subtree). -/
def flatIndices : List NavItem → Nat → List Nat
  | [], _ => []
  | ⟨_, _, subs⟩ :: rest, index =>
    index :: (flatIndices subs (index + 1) ++ flatIndices rest (index + 1))

/-- The pages of an enhanced TOC forest, read off in the same flat order as
`indexedNodes`. -/
def collectPages : List EnhancedNavItem → List (Option Nat)
  | [] => []
  | ⟨_, _, p, subs⟩ :: rest => p :: (collectPages subs ++ collectPages rest)

/-- Modelled from the spec words of the amended claim: the page assigned to
flat index `i` out of `nTop` top-level entries given `L > 0` locations is
`floor(i / nTop * L) + 1` clamped to `[1, L]`; no page when `L = 0` or the
estimate for this entry failed. -/
def claimPage (nTop L i : Nat) : Option Nat :=
  if 0 < L then some (min (max (i * L / nTop + 1) 1) L) else none

/-- Modelled from the spec words of the amended claim: the page a spec
reader would predict for flat index `i`, consulting the (possibly failing)
location oracle for this entry. -/
def specPageAt (nTop : Nat) (locLen : Nat → Except Unit Nat) (i : Nat) : Option Nat :=
  match locLen i with
  | .error _ => none
  | .ok L => claimPage nTop L i

/-- Modelled from the spec words of claim C5 as stated: the page formula
using `nTotal`, the total number of entries counting nested ones. -/
def claimPageTotal (nTotal L i : Nat) : Nat :=
  min (max (i * L / nTotal + 1) 1) L

/-! ## Helper lemmas: the forward substring scan -/

/-- A non-empty query can only match strictly inside the buffer. -/
theorem matchesAt_lt_length {s q : List Char} {i : Nat} (hq : q ≠ [])
    (h : matchesAt s q i = true) : i < s.length := by
  by_contra hge
  push_neg at hge
  unfold matchesAt at h
  rw [List.drop_eq_nil_of_le hge] at h
  simp at h
  exact hq h

/-- A successful fuelled scan returns an offset at least `start`, inside the
buffer, where the query matches. -/
theorem indexOfFromAux_some {s q : List Char} :
    ∀ {r start pos}, indexOfFromAux s q r start = some pos →
      start ≤ pos ∧ pos ≤ s.length ∧ matchesAt s q pos = true := by
  intro r
  induction r with
  | zero => intro start pos h; simp [indexOfFromAux] at h
  | succ r ih =>
    intro start pos h
    unfold indexOfFromAux at h
    by_cases hb : start ≤ s.length
    · rw [if_pos hb] at h
      by_cases hm : matchesAt s q start = true
      · rw [if_pos hm] at h
        cases h
        exact ⟨Nat.le_refl _, hb, hm⟩
      · rw [if_neg hm] at h
        obtain ⟨h1, h2, h3⟩ := ih h
        exact ⟨Nat.le_trans (Nat.le_succ _) h1, h2, h3⟩
    · rw [if_neg hb] at h
      cases h

/-- The fuelled scan returns the least matching offset at or after
`start`. -/
theorem indexOfFromAux_least {s q : List Char} :
    ∀ {r start pos}, indexOfFromAux s q r start = some pos →
      ∀ i, start ≤ i → matchesAt s q i = true → pos ≤ i := by
  intro r
  induction r with
  | zero => intro start pos h; simp [indexOfFromAux] at h
  | succ r ih =>
    intro start pos h i hsi hmi
    unfold indexOfFromAux at h
    by_cases hb : start ≤ s.length
    · rw [if_pos hb] at h
      by_cases hm : matchesAt s q start = true
      · rw [if_pos hm] at h
        cases h
        exact hsi
      · rw [if_neg hm] at h
        have hne : i ≠ start := by
          intro he
          exact hm (he ▸ hmi)
        exact ih h i (by omega) hmi
    · rw [if_neg hb] at h
      cases h

/-- With enough fuel, a failed scan means no offset in
`[start, s.length]` matches. -/
theorem indexOfFromAux_none {s q : List Char} :
    ∀ {r start}, s.length + 1 ≤ r + start → indexOfFromAux s q r start = none →
      ∀ i, start ≤ i → i ≤ s.length → matchesAt s q i = false := by
  intro r
  induction r with
  | zero => intro start hr _ i hsi hil; omega
  | succ r ih =>
    intro start hr h i hsi hil
    unfold indexOfFromAux at h
    by_cases hb : start ≤ s.length
    · rw [if_pos hb] at h
      by_cases hm : matchesAt s q start = true
      · rw [if_pos hm] at h
        cases h
      · rw [if_neg hm] at h
        rcases Nat.eq_or_lt_of_le hsi with he | hlt
        · subst he
          exact Bool.eq_false_iff.mpr hm
        · exact ih (by omega) h i hlt hil
    · omega

/-- `indexOf` facts, at the seeded fuel. -/
theorem indexOfFrom_some {s q : List Char} {start pos : Nat}
    (h : indexOfFrom s q start = some pos) :
    start ≤ pos ∧ pos ≤ s.length ∧ matchesAt s q pos = true :=
  indexOfFromAux_some h

/-- Leastness of `indexOf` at the seeded fuel. -/
theorem indexOfFrom_least {s q : List Char} {start pos : Nat}
    (h : indexOfFrom s q start = some pos) :
    ∀ i, start ≤ i → matchesAt s q i = true → pos ≤ i :=
  indexOfFromAux_least h

/-- A `none` from `indexOf` means no offset in `[start, s.length]`
matches. -/
theorem indexOfFrom_none {s q : List Char} {start : Nat}
    (h : indexOfFrom s q start = none) :
    ∀ i, start ≤ i → i ≤ s.length → matchesAt s q i = false :=
  indexOfFromAux_none (by omega) h

/-- Every offset reported by the occurrence loop is at least the current
scan position and is a genuine match. -/
theorem scanLoopAux_sound {s q : List Char} :
    ∀ {r start p}, p ∈ scanLoopAux s q r start →
      start ≤ p ∧ matchesAt s q p = true := by
  intro r
  induction r with
  | zero => intro start p h; simp [scanLoopAux] at h
  | succ r ih =>
    intro start p h
    unfold scanLoopAux at h
    cases hx : indexOfFrom s q start with
    | none => rw [hx] at h; simp at h
    | some pos =>
      rw [hx] at h
      obtain ⟨h1, h2, h3⟩ := indexOfFrom_some hx
      rcases List.mem_cons.mp h with he | ht
      · subst he
        exact ⟨h1, h3⟩
      · obtain ⟨hp1, hp2⟩ := ih ht
        exact ⟨by omega, hp2⟩

/-- With enough fuel, every match at or after the scan position is
reported (occurrences are not deduplicated, however close together). -/
theorem scanLoopAux_complete {s q : List Char} (hq : q ≠ []) :
    ∀ {r start p}, s.length + 1 ≤ r + start → start ≤ p →
      matchesAt s q p = true → p ∈ scanLoopAux s q r start := by
  intro r
  induction r with
  | zero =>
    intro start p hr hsp hm
    have := matchesAt_lt_length hq hm
    omega
  | succ r ih =>
    intro start p hr hsp hm
    unfold scanLoopAux
    cases hx : indexOfFrom s q start with
    | none =>
      have hlt := matchesAt_lt_length hq hm
      have := indexOfFrom_none hx p hsp (by omega)
      rw [hm] at this
      cases this
    | some pos =>
      obtain ⟨h1, h2, h3⟩ := indexOfFrom_some hx
      have hle := indexOfFrom_least hx p hsp hm
      rcases Nat.eq_or_lt_of_le hle with he | hlt
      · exact he ▸ List.mem_cons_self _ _
      · exact List.mem_cons_of_mem _ (ih (by omega) hlt hm)

/-- The occurrence loop reports offsets in strictly increasing order. -/
theorem scanLoopAux_chain {s q : List Char} :
    ∀ {r start}, (scanLoopAux s q r start).Pairwise (· < ·) := by
  intro r
  induction r with
  | zero => intro start; simp [scanLoopAux]
  | succ r ih =>
    intro start
    unfold scanLoopAux
    cases hx : indexOfFrom s q start with
    | none => simp
    | some pos =>
      refine List.Pairwise.cons ?_ ih
      intro p hp
      have := scanLoopAux_sound hp
      omega

/-! ## Claim C7 -/

/-- C7: for every chapter text buffer and every non-empty trimmed
lower-cased query, the per-chapter scan (repeated forward substring search
restarting one character past each match start) reports exactly the set of
occurrence offsets — every occurrence is reported, nearby and overlapping
ones included, none twice — in strictly increasing offset order; and
searching "cat" in "the cats category" yields exactly the two flat offsets
4 and 9. -/
theorem searchScan_occurrences (s q : List Char) (hq : q ≠ []) :
    (∀ p, p ∈ scanOccurrences s q ↔ matchesAt s q p = true)
    ∧ (scanOccurrences s q).Pairwise (· < ·)
    ∧ scanOccurrences ("the cats category".toList) ("cat".toList) = [4, 9] := by
  refine ⟨fun p => ⟨fun h => (scanLoopAux_sound h).2,
    fun h => scanLoopAux_complete hq (by omega) (Nat.zero_le p) h⟩,
    scanLoopAux_chain, by decide⟩

/-- Witness for C7 at a concrete buffer and query. -/
theorem searchScan_occurrences_witness :
    scanOccurrences ("the cats category".toList) ("cat".toList) = [4, 9] :=
  (searchScan_occurrences ("the cats category".toList) ("cat".toList) (by decide)).2.2

/-! ## Helper lemmas: the concurrent push scheduler -/

/-- One push either extends chapter `c`'s contribution (when it came from
task `c`) or leaves it unchanged. -/
theorem outputsFor_cons {α : Type} (c d : Nat) (x : α) (out : List (Nat × α)) :
    outputsFor c ((d, x) :: out) =
      if d = c then x :: outputsFor c out else outputsFor c out := by
  simp only [outputsFor, List.filterMap_cons]
  split <;> simp_all

/-- Unfolding equation of one scheduler step. -/
theorem runSched_cons {α : Type} (queues : List (List α)) (d : Nat) (cs : List Nat) :
    runSched queues (d :: cs) =
      match queues[d]? with
      | some (x :: rest) =>
        let r := runSched (queues.set d rest) cs
        ((d, x) :: r.1, r.2)
      | _ => runSched queues cs := rfl

/-- Invariant of the scheduler: chapter `c`'s pushes so far, followed by
its still-pending queue, always equal its original queue. -/
theorem runSched_outputsFor {α : Type} (c : Nat) :
    ∀ (sched : List Nat) (queues : List (List α)),
      outputsFor c (runSched queues sched).1 ++ ((runSched queues sched).2.getD c []) =
        queues.getD c [] := by
  intro sched
  induction sched with
  | nil => intro queues; simp [runSched, outputsFor]
  | cons d cs ih =>
    intro queues
    rw [runSched_cons]
    cases hq : queues[d]? with
    | none => exact ih queues
    | some l =>
      cases l with
      | nil => exact ih queues
      | cons x rest =>
        have hd : d < queues.length := by
          by_contra hge
          push_neg at hge
          rw [List.getElem?_eq_none hge] at hq
          cases hq
        show outputsFor c ((d, x) :: (runSched (queues.set d rest) cs).1)
            ++ ((runSched (queues.set d rest) cs).2.getD c []) = queues.getD c []
        rw [outputsFor_cons]
        by_cases hdc : d = c
        · subst hdc
          rw [if_pos rfl, List.cons_append]
          rw [ih (queues.set d rest)]
          rw [List.getD_eq_getElem?_getD, List.getD_eq_getElem?_getD,
            List.getElem?_set_self hd, hq]
          rfl
        · rw [if_neg hdc]
          rw [ih (queues.set d rest)]
          rw [List.getD_eq_getElem?_getD, List.getD_eq_getElem?_getD,
            List.getElem?_set_ne hdc]

/-- When every task queue has drained, each chapter's pending queue is
empty. -/
theorem allEmpty_getD {α : Type} {l : List (List α)}
    (h : l.all List.isEmpty = true) (c : Nat) : l.getD c [] = [] := by
  rw [List.getD_eq_getElem?_getD]
  cases hx : l[c]? with
  | none => rfl
  | some v =>
    have hv := List.all_eq_true.mp h v (List.getElem?_mem hx)
    rw [List.isEmpty_iff] at hv
    simp [hv]

/-! ## Claim C3 -/

/-- C3 counterexample: a document with two chapters both containing the
query, where the chapter-1 scan task completes its push before the
chapter-0 task (schedule `[1, 0]`). The run is complete — every chapter
task finished all its pushes — yet the published result sequence is not
sorted by `chapterIndex` ascending, because `searchBook` pushes into one
shared array in completion order and never sorts it. -/
theorem searchResults_unsorted_cex :
    ((runSched
        (searchQueues [⟨"c0.html", "Ch0", "ab".toList⟩, ⟨"c1.html", "Ch1", "ab".toList⟩]
          "a".toList)
        [1, 0]).2.all List.isEmpty = true)
    ∧ (isSortedByChapter
        ((runSched
            (searchQueues [⟨"c0.html", "Ch0", "ab".toList⟩, ⟨"c1.html", "Ch1", "ab".toList⟩]
              "a".toList)
            [1, 0]).1.map Prod.snd) = false) :=
  ⟨by decide, by decide⟩

/-- C3 amended: for every document, query and completion schedule, the
published sequence restricted to one chapter is that chapter's occurrence
list in order — a prefix of it while the chapter's task is still pushing,
all of it once the run is complete. The cross-chapter interleaving is the
push (completion) order, so the sequence is not in general sorted by
`chapterIndex` (see the counterexample). -/
theorem search_within_chapter_order (doc : List ChapterDoc) (q : List Char)
    (sched : List Nat) (c : Nat) :
    (outputsFor c (runSched (searchQueues doc q) sched).1
        ++ ((runSched (searchQueues doc q) sched).2.getD c []) =
      (searchQueues doc q).getD c [])
    ∧ ((runSched (searchQueues doc q) sched).2.all List.isEmpty = true →
        outputsFor c (runSched (searchQueues doc q) sched).1 =
          (searchQueues doc q).getD c []) := by
  refine ⟨runSched_outputsFor c sched _, fun hall => ?_⟩
  have h1 := runSched_outputsFor c sched (searchQueues doc q)
  rw [allEmpty_getD hall] at h1
  simpa using h1

/-- Witness for C3's amended theorem: on the two-chapter document with the
out-of-order schedule, chapter 0's contribution to the published sequence
is exactly its own queue. -/
theorem search_within_chapter_order_witness :
    outputsFor 0
        (runSched
          (searchQueues [⟨"c0.html", "Ch0", "ab".toList⟩, ⟨"c1.html", "Ch1", "ab".toList⟩]
            "a".toList)
          [1, 0]).1 =
      (searchQueues [⟨"c0.html", "Ch0", "ab".toList⟩, ⟨"c1.html", "Ch1", "ab".toList⟩]
          "a".toList).getD 0 [] :=
  (search_within_chapter_order
    [⟨"c0.html", "Ch0", "ab".toList⟩, ⟨"c1.html", "Ch1", "ab".toList⟩]
    "a".toList [1, 0] 0).2 (by decide)

/-! ## Claim C1 -/

/-- C1: in restricted mode (clipboard resolving), a copy of length `L`
succeeds iff `copiedChars + L ≤ totalChars * allowancePercent / 100`; on
success `copiedChars` grows by exactly `L` and the new total is persisted;
on failure the call reports the quota error. For `totalChars = 400` and a
10% allowance, the sequence 30, 15, 10 yields success (30), failure,
success (40). -/
theorem copyText_restricted_quota (total : Nat) (allow : ℚ) (L : Nat) (s : CopyState) :
    ((copyText true total allow true L s).2 = .ok ↔
      (s.copiedChars : ℚ) + L ≤ total * allow / 100)
    ∧ ((s.copiedChars : ℚ) + L ≤ total * allow / 100 →
        copyText true total allow true L s =
          ({ copiedChars := s.copiedChars + L,
             persistedCopiedChars := some (s.copiedChars + L),
             clipboard := s.clipboard ++ [L] }, .ok))
    ∧ (¬ ((s.copiedChars : ℚ) + L ≤ total * allow / 100) →
        (copyText true total allow true L s).2 = .quotaExceeded)
    ∧ runCopies 400 10 ⟨0, none, []⟩ [30, 15, 10] =
        (⟨40, some 40, [30, 10]⟩, [.ok, .quotaExceeded, .ok]) := by
  refine ⟨?_, ?_, ?_, ?_⟩
  · by_cases hc : (s.copiedChars : ℚ) + L ≤ total * allow / 100
    · simp [copyText, not_lt.mpr hc, hc]
    · simp [copyText, lt_of_not_le hc, hc]
  · intro hc
    simp [copyText, not_lt.mpr hc]
  · intro hc
    simp [copyText, lt_of_not_le hc]
  · simp only [runCopies, copyText]
    norm_num

/-- Witness for C1 at the scenario's first call: copying 30 characters of
a 400-character book under a 10% allowance succeeds and bumps and persists
the counter. -/
theorem copyText_restricted_quota_witness :
    copyText true 400 10 true 30 ⟨0, none, []⟩ = (⟨30, some 30, [30]⟩, .ok) :=
  (copyText_restricted_quota 400 10 30 ⟨0, none, []⟩).2.1 (by norm_num)

/-! ## Claim C8 -/

/-- C8: in restricted mode, whenever authorization is denied, `copyText`
fails before the clipboard is written and before the counter or its
persisted value changes — whatever the clipboard would have done: the
returned state is exactly the prior state and the outcome is the quota
error. -/
theorem copyText_denied_preserves_state (total : Nat) (allow : ℚ) (b : Bool) (L : Nat)
    (s : CopyState) (hd : (total * allow / 100 : ℚ) < (s.copiedChars : ℚ) + L) :
    copyText true total allow b L s = (s, .quotaExceeded) := by
  simp [copyText, hd]

/-- Witness for C8: the scenario's denied middle call (15 more characters
at `copiedChars = 30` under allowance 40) leaves the state untouched. -/
theorem copyText_denied_preserves_state_witness :
    copyText true 400 10 true 15 ⟨30, some 30, [30]⟩ = (⟨30, some 30, [30]⟩, .quotaExceeded) :=
  copyText_denied_preserves_state 400 10 true 15 ⟨30, some 30, [30]⟩ (by norm_num)

/-! ## Claim C6 -/

/-- C6: a configured allowance percentage below 0 or above 100 makes
session construction fail with the fatal configuration error; every
percentage in `[0, 100]` is accepted as the session's allowance. -/
theorem copyAllowance_validation (p : ℚ) :
    ((p < 0 ∨ 100 < p) →
      validateCopyAllowance p = .error .invalidCopyAllowancePercentage)
    ∧ (0 ≤ p → p ≤ 100 → validateCopyAllowance p = .ok p) := by
  constructor
  · intro h
    simp [validateCopyAllowance, h]
  · intro h0 h100
    have : ¬ (p < 0 ∨ p > 100) := by
      push_neg
      exact ⟨h0, h100⟩
    simp [validateCopyAllowance, this]

/-- Witness for C6: 150% is rejected, 10% is accepted. -/
theorem copyAllowance_validation_witness :
    validateCopyAllowance 150 = .error .invalidCopyAllowancePercentage
    ∧ validateCopyAllowance 10 = .ok 10 :=
  ⟨(copyAllowance_validation 150).1 (Or.inr (by norm_num)),
   (copyAllowance_validation 10).2 (by norm_num) (by norm_num)⟩

/-! ## Claim C2 -/

/-- C2 counterexample: adding the same `(position, kind)` key twice from
the empty store leaves two stored highlights with that key — `addHighlight`
appends unconditionally, so the collection does not keep at most one
highlight per `(position, kind)` pair. -/
theorem addHighlight_duplicate_cex :
    ¬ (countByKey
        ((addHighlight "t1" ⟨"epubcfi(/6/4!/4/2)", "some text", none, none⟩
          (addHighlight "t0" ⟨"epubcfi(/6/4!/4/2)", "some text", none, none⟩
            ⟨[], none⟩)).highlights)
        "epubcfi(/6/4!/4/2)" .highlight ≤ 1) := by
  decide

/-- C2 amended: `addHighlight` always appends the new (defaulted) entry
and persists the appended collection; an existing entry with the same
`(position, kind)` is not replaced — the count of stored highlights for
that key grows by exactly one on every add, so duplicates accumulate. -/
theorem addHighlight_appends (now : String) (args : HighlightInput) (st : HighlightStore)
    (cfi : String) (t : HighlightType) :
    ((addHighlight now args st).highlights =
      st.highlights ++
        [⟨args.cfi, args.text, args.type.getD .highlight, args.color.getD "yellow", now⟩])
    ∧ ((addHighlight now args st).persisted = some (addHighlight now args st).highlights)
    ∧ (countByKey (addHighlight now args st).highlights cfi t =
        countByKey st.highlights cfi t +
          (if args.cfi = cfi ∧ args.type.getD .highlight = t then 1 else 0)) := by
  refine ⟨rfl, rfl, ?_⟩
  simp only [addHighlight, countByKey, List.filter_append, List.length_append]
  congr 1
  by_cases hc : args.cfi = cfi ∧ args.type.getD .highlight = t
  · simp [List.filter, hc.1, hc.2, if_pos hc]
  · rw [if_neg hc]
    have hb : (args.cfi == cfi && args.type.getD .highlight == t) = false := by
      rcases not_and_or.mp hc with hne | hne <;> simp [hne]
    simp [List.filter, hb]

/-! ## Claim C9 -/

/-- C9: `removeHighlight cfi type` removes from the stored collection
every highlight whose position equals `cfi` regardless of its kind — the
`type` argument does not restrict which stored entries are deleted — and
leaves the highlights at every other position unchanged; the filtered
collection is persisted. -/
theorem removeHighlight_position_only (cfi : String) (t t' : HighlightType)
    (st : HighlightStore) :
    (removeHighlight cfi t st = removeHighlight cfi t' st)
    ∧ (∀ h ∈ (removeHighlight cfi t st).highlights, h.cfi ≠ cfi)
    ∧ (∀ cfi', cfi' ≠ cfi →
        (removeHighlight cfi t st).highlights.filter (fun h => h.cfi == cfi') =
          st.highlights.filter (fun h => h.cfi == cfi'))
    ∧ ((removeHighlight cfi t st).persisted = some (removeHighlight cfi t st).highlights) := by
  refine ⟨rfl, ?_, ?_, rfl⟩
  · intro h hm
    have := List.of_mem_filter hm
    simpa using this
  · intro cfi' hne
    show (st.highlights.filter (fun h => h.cfi ≠ cfi)).filter (fun h => h.cfi == cfi') =
      st.highlights.filter (fun h => h.cfi == cfi')
    rw [List.filter_filter]
    refine List.filter_congr ?_
    intro h _
    by_cases hc : h.cfi = cfi'
    · simp [hc, hne]
    · simp [hc]

/-- Witness for C9: with two highlights at one position (one of each kind)
and a third elsewhere, removing by either kind gives the same store, and
the entry at the other position survives. -/
theorem removeHighlight_position_only_witness :
    (removeHighlight "cfiA" .highlight
        ⟨[⟨"cfiA", "x", .highlight, "yellow", "t0"⟩, ⟨"cfiA", "y", .underline, "red", "t1"⟩,
          ⟨"cfiB", "z", .highlight, "blue", "t2"⟩], none⟩ =
      removeHighlight "cfiA" .underline
        ⟨[⟨"cfiA", "x", .highlight, "yellow", "t0"⟩, ⟨"cfiA", "y", .underline, "red", "t1"⟩,
          ⟨"cfiB", "z", .highlight, "blue", "t2"⟩], none⟩)
    ∧ ((removeHighlight "cfiA" .highlight
        ⟨[⟨"cfiA", "x", .highlight, "yellow", "t0"⟩, ⟨"cfiA", "y", .underline, "red", "t1"⟩,
          ⟨"cfiB", "z", .highlight, "blue", "t2"⟩], none⟩).highlights.filter
        (fun h => h.cfi == "cfiB") =
      [⟨"cfiA", "x", .highlight, "yellow", "t0"⟩, ⟨"cfiA", "y", .underline, "red", "t1"⟩,
          ⟨"cfiB", "z", .highlight, "blue", "t2"⟩].filter (fun h => h.cfi == "cfiB")) :=
  ⟨(removeHighlight_position_only "cfiA" .highlight .underline _).1,
   (removeHighlight_position_only "cfiA" .highlight .underline _).2.2.1 "cfiB" (by decide)⟩

/-! ## Claim C4 -/

/-- C4 is violated by the notes collection: at session start a stored
value whose `JSON.parse` throws leaves highlights and bookmarks at their
empty initial state without an exception (their loading effects catch the
parse failure), but the saved-notes effect parses with no `try/catch`, so
the same failing bytes make the notes loading step throw instead of
falling back to the empty collection. -/
theorem loadNotes_parse_failure_throws :
    loadNotesEffect (some (.error "SyntaxError: Unexpected token")) =
      .error "SyntaxError: Unexpected token"
    ∧ loadHighlightsEffect (some (.error "SyntaxError: Unexpected token")) = .ok []
    ∧ loadBookmarksEffect (some (.error "SyntaxError: Unexpected token")) = .ok [] :=
  ⟨rfl, rfl, rfl⟩

/-! ## Claim C10 -/

/-- C10: `goToSearchResult i` with `i < 0` or `i ≥ n` (the result count)
is a complete no-op — nothing is displayed and neither the selected-result
position nor `currentSearchResultIndex` changes; for `0 ≤ i < n` it
displays and selects result `i` and records the index. -/
theorem goToSearchResult_bounds (index : Int) (st : SearchNavState) :
    ((index < 0 ∨ (st.searchResults.length : Int) ≤ index) →
      goToSearchResult index st = st)
    ∧ (0 ≤ index → index < st.searchResults.length →
        ∃ r, st.searchResults[index.toNat]? = some r ∧
          goToSearchResult index st =
            { st with displayed := st.displayed ++ [r.cfi], selectedCfi := r.cfi,
                      currentSearchResultIndex := index }) := by
  constructor
  · intro h
    have hni : ¬ (0 ≤ index ∧ index < st.searchResults.length) := by
      rcases h with h | h
      · intro hc
        omega
      · intro hc
        omega
    simp [goToSearchResult, hni]
  · intro h0 hlt
    have hnat : index.toNat < st.searchResults.length := by omega
    obtain ⟨r, hr⟩ : ∃ r, st.searchResults[index.toNat]? = some r :=
      ⟨st.searchResults[index.toNat], List.getElem?_eq_getElem hnat⟩
    refine ⟨r, hr, ?_⟩
    rw [goToSearchResult, if_pos ⟨h0, hlt⟩, hr]

/-- Witness for C10: on a one-result list, index `-1` changes nothing and
index `0` selects and displays the result. -/
theorem goToSearchResult_bounds_witness :
    goToSearchResult (-1) ⟨[⟨"cfiX", "e", "h", "T", 0⟩], "s", -1, []⟩ =
      ⟨[⟨"cfiX", "e", "h", "T", 0⟩], "s", -1, []⟩
    ∧ goToSearchResult 0 ⟨[⟨"cfiX", "e", "h", "T", 0⟩], "s", -1, []⟩ =
      ⟨[⟨"cfiX", "e", "h", "T", 0⟩], "cfiX", 0, ["cfiX"]⟩ := by
  constructor
  · exact (goToSearchResult_bounds (-1) _).1 (Or.inl (by norm_num))
  · obtain ⟨r, hr, he⟩ :=
      (goToSearchResult_bounds 0 ⟨[⟨"cfiX", "e", "h", "T", 0⟩], "s", -1, []⟩).2
        (by norm_num) (by norm_num)
    have hse : some (⟨"cfiX", "e", "h", "T", 0⟩ : SearchResult) = some r := by
      rw [← hr]
      rfl
    injection hse with hre
    subst hre
    simpa using he

/-! ## Helper lemmas: TOC page estimation -/

/-- The clamping of `enhanceItem` computes exactly the spec-side
`min (max … 1) L` form. -/
theorem pageAt_eq_specPageAt (n : Nat) (locLen : Nat → Except Unit Nat) (i : Nat) :
    pageAt n locLen i = specPageAt n locLen i := by
  cases h : locLen i with
  | error e => simp [pageAt, specPageAt, h]
  | ok L =>
    simp only [pageAt, specPageAt, claimPage, h]
    by_cases hL : 0 < L
    · rw [if_pos hL, if_pos hL]
      congr 1
      generalize i * L / n = m
      rw [if_neg (by omega : ¬ (m + 1 < 1))]
      rw [(by omega : max (m + 1) 1 = m + 1)]
      by_cases h3 : m + 1 > L
      · rw [if_pos h3, Nat.min_def, if_neg (by omega)]
      · rw [if_neg h3, Nat.min_def, if_pos (by omega)]
    · rw [if_neg hL, if_neg hL]

/-- Every node of the enhanced forest carries the page the flat-index
formula predicts for it, in flat order. -/
theorem enhanceSubs_collect (n : Nat) (locLen : Nat → Except Unit Nat) :
    ∀ (items : List NavItem) (index : Nat),
      collectPages (enhanceSubs n locLen items index) =
        (flatIndices items index).map (specPageAt n locLen)
  | [], _ => by simp [enhanceSubs, collectPages, flatIndices]
  | ⟨label, href, subs⟩ :: rest, index => by
    have h1 := enhanceSubs_collect n locLen subs (index + 1)
    have h2 := enhanceSubs_collect n locLen rest (index + 1)
    simp [enhanceSubs, collectPages, flatIndices, h1, h2, pageAt_eq_specPageAt]
termination_by items _ => sizeOf items

/-! ## Claim C5 -/

/-- C5 counterexample: a TOC of one top-level entry with one child — two
total entries under the claim's counting, so the claim assigns the child
(flat index 1) the page `floor(1/2 × 100) + 1 = 51` — but the code divides
by the number of top-level entries (1), giving `floor(1/1 × 100) + 1 = 101`
clamped to 100. -/
theorem enhanceToc_nested_denominator_cex :
    (collectPages
        (enhanceTocWithPages [⟨"A", "a.html", [⟨"B", "b.html", []⟩]⟩] (fun _ => .ok 100)) =
      [some 1, some 100])
    ∧ claimPageTotal 2 100 1 = 51
    ∧ (some 100 : Option Nat) ≠ some 51 := by
  refine ⟨?_, by decide, by decide⟩
  simp [enhanceTocWithPages, enhanceSubs, collectPages, pageAt]

/-- C5 amended: the entry at flat index `i` — where a node's children and
its next sibling both continue the numbering at the node's index plus one —
out of `n` TOP-LEVEL entries (not total entries) is assigned estimated page
`floor(i/n × totalLocations) + 1` clamped to `[1, totalLocations]` when
`totalLocations > 0`; a TOC of 4 flat entries with `totalLocations = 100`
gets pages 1, 26, 51, 76; and a failure to estimate any single entry
leaves just that entry with no estimated page without aborting TOC
construction. -/
theorem enhanceToc_pages (tocItems : List NavItem) (locLen : Nat → Except Unit Nat) :
    (collectPages (enhanceTocWithPages tocItems locLen) =
      (flatIndices tocItems 0).map (specPageAt tocItems.length locLen))
    ∧ (collectPages
        (enhanceTocWithPages
          [⟨"1", "1.html", []⟩, ⟨"2", "2.html", []⟩, ⟨"3", "3.html", []⟩, ⟨"4", "4.html", []⟩]
          (fun _ => .ok 100)) = [some 1, some 26, some 51, some 76])
    ∧ (collectPages
        (enhanceTocWithPages
          [⟨"1", "1.html", []⟩, ⟨"2", "2.html", []⟩, ⟨"3", "3.html", []⟩, ⟨"4", "4.html", []⟩]
          (fun i => if i = 1 then .error () else .ok 100)) =
        [some 1, none, some 51, some 76]) := by
  refine ⟨enhanceSubs_collect tocItems.length locLen tocItems 0, ?_, ?_⟩
  · simp [enhanceTocWithPages, enhanceSubs, collectPages, pageAt]
  · simp [enhanceTocWithPages, enhanceSubs, collectPages, pageAt]
